import Mathlib

/-!
Shallow embedding of the editing core of the Codein editor (src/main.c):
document lines, cursor, viewport, bounded undo/redo stacks, the mutating
edit operations, and forward wrap-around search.  Lines are lists of code
units (Char); machine strings are NUL-terminated byte arrays in the source
and are modelled here as the list of bytes before the NUL.  The undo and
redo arrays of the source grow at index undo_count and drop index 0 when
full; here each stack is a list stored most-recent-first, so the newest
snapshot is the head and dropping the oldest is take of the newest
UNDO_DEPTH - 1 elements.  Allocation is assumed to succeed except in the
explicitly oracle-threaded variants used to study capture failure.
-/

namespace Codein

/-- One document line: the code units of the C string before its NUL. -/
abbrev Line := List Char

/-- MAX_LINES from main.c. -/
def MAX_LINES : Nat := 10000

/-- MAX_COL from main.c. -/
def MAX_COL : Nat := 4096

/-- UNDO_DEPTH from main.c. -/
def UNDO_DEPTH : Nat := 32

/-- UndoSnapshot from main.c: a full copy of the document lines together
with the cursor column, cursor row and first visible line. -/
structure Snapshot where
  lines : List Line
  cur_x : Nat
  cur_y : Nat
  top_line : Nat
deriving DecidableEq

/-- The mutable globals of main.c that the editing core owns: the document
lines (the first num_lines entries of the lines array), cursor column
cur_x, cursor row cur_y, first visible line top_line, and the two history
stacks with their counts.  Stacks are most-recent-first lists. -/
structure EditorState where
  lines : List Line
  cur_x : Nat
  cur_y : Nat
  top_line : Nat
  undo_stack : List Snapshot
  redo_stack : List Snapshot
deriving DecidableEq

/-- Snapshot of the live document, cursor and viewport, as captured by
push_undo and by the stack saves inside do_undo and do_redo. -/
def liveSnapshot (st : EditorState) : Snapshot :=
  ⟨st.lines, st.cur_x, st.cur_y, st.top_line⟩

/-- push_undo from main.c, with the snapshot allocation succeeding: when
the undo stack is full the oldest snapshot is dropped first, then the live
state is pushed and the redo stack is cleared unconditionally. -/
def push_undo (st : EditorState) : EditorState :=
  let us := if st.undo_stack.length = UNDO_DEPTH
            then st.undo_stack.take (UNDO_DEPTH - 1)
            else st.undo_stack
  { st with undo_stack := liveSnapshot st :: us, redo_stack := [] }

/-- do_undo from main.c.  The Bool is true when an undo happened and false
for the beep on an empty undo stack.  On success the live state is saved
onto the redo stack (dropping the oldest redo snapshot when that stack is
full), the popped snapshot becomes the live state, and it leaves the undo
stack. -/
def do_undo (st : EditorState) : EditorState × Bool :=
  match st.undo_stack with
  | [] => (st, false)
  | s :: rest =>
    let rs := if st.redo_stack.length < UNDO_DEPTH
              then liveSnapshot st :: st.redo_stack
              else liveSnapshot st :: st.redo_stack.take (UNDO_DEPTH - 1)
    (⟨s.lines, s.cur_x, s.cur_y, s.top_line, rest, rs⟩, true)

/-- do_redo from main.c, symmetric to do_undo with the stacks swapped. -/
def do_redo (st : EditorState) : EditorState × Bool :=
  match st.redo_stack with
  | [] => (st, false)
  | r :: rest =>
    let us := if st.undo_stack.length < UNDO_DEPTH
              then liveSnapshot st :: st.undo_stack
              else liveSnapshot st :: st.undo_stack.take (UNDO_DEPTH - 1)
    (⟨r.lines, r.cur_x, r.cur_y, r.top_line, us, rest⟩, true)

/-- newline from main.c: push_undo, refuse if the line count would exceed
MAX_LINES, otherwise split the current line at the cursor column, insert
the tail as a new line below, and move the cursor to the start of it. -/
def newline (st0 : EditorState) : EditorState :=
  let st := push_undo st0
  if MAX_LINES ≤ st.lines.length + 1 then st
  else
    let ln := st.lines.getD st.cur_y []
    let ls := st.lines.set st.cur_y (ln.take st.cur_x)
    { st with
      lines := ls.take (st.cur_y + 1) ++ ln.drop st.cur_x :: ls.drop (st.cur_y + 1),
      cur_y := st.cur_y + 1,
      cur_x := 0 }

/-- insert_char from main.c: push_undo, then if the cursor column has
reached the screen width minus one delegate to newline (which pushes a
second snapshot), otherwise refuse if the line would exceed MAX_COL and
else insert the code unit at the cursor column and advance the cursor.
cols is the screen width returned by getmaxyx. -/
def insert_char (cols : Nat) (c : Char) (st0 : EditorState) : EditorState :=
  let st := push_undo st0
  if cols - 1 ≤ st.cur_x then newline st
  else
    let ln := st.lines.getD st.cur_y []
    if MAX_COL ≤ ln.length + 2 then st
    else { st with
           lines := st.lines.set st.cur_y (ln.take st.cur_x ++ c :: ln.drop st.cur_x),
           cur_x := st.cur_x + 1 }

/-- backspace from main.c: push_undo, then either delete the code unit
before the cursor, or at column zero of a row below the first merge the
row into the previous one unless the merged length would exceed MAX_COL,
or do nothing at the very start of the document. -/
def backspace (st0 : EditorState) : EditorState :=
  let st := push_undo st0
  if 0 < st.cur_x then
    let ln := st.lines.getD st.cur_y []
    { st with
      lines := st.lines.set st.cur_y (ln.take (st.cur_x - 1) ++ ln.drop st.cur_x),
      cur_x := st.cur_x - 1 }
  else if 0 < st.cur_y then
    let prev := st.lines.getD (st.cur_y - 1) []
    let cur := st.lines.getD st.cur_y []
    if MAX_COL ≤ prev.length + cur.length + 1 then st
    else
      let ls := st.lines.set (st.cur_y - 1) (prev ++ cur)
      { st with
        lines := ls.take st.cur_y ++ ls.drop (st.cur_y + 1),
        cur_y := st.cur_y - 1,
        cur_x := prev.length }
  else st

/-- load_file from main.c, with the file system at the boundary: none
stands for no path or an unopenable file, some ls for the stripped lines
read by getline.  The read loop stops at MAX_LINES lines, an empty file
yields one empty line, and cursor, viewport and stacks start zeroed. -/
def load_file (content : Option (List Line)) : EditorState :=
  match content with
  | none => ⟨[[]], 0, 0, 0, [], []⟩
  | some ls =>
    let loaded := ls.take MAX_LINES
    if loaded.isEmpty then ⟨[[]], 0, 0, 0, [], []⟩
    else ⟨loaded, 0, 0, 0, [], []⟩

/-- push_undo with an explicit allocation oracle: ok = false models the
malloc of the snapshot line array failing, in which case the source resets
the slot and returns early, so nothing is pushed and the redo stack is not
cleared; when the stack was full the oldest snapshot has nevertheless
already been evicted before the allocation was attempted. -/
def push_undo_alloc (ok : Bool) (st : EditorState) : EditorState :=
  let us := if st.undo_stack.length = UNDO_DEPTH
            then st.undo_stack.take (UNDO_DEPTH - 1)
            else st.undo_stack
  if ok then { st with undo_stack := liveSnapshot st :: us, redo_stack := [] }
  else { st with undo_stack := us }

/-- insert_char with the allocation oracle threaded into its push_undo
call; the allocations made by the edit itself, and by the push inside a
delegated newline, are modelled as succeeding. -/
def insert_char_alloc (ok : Bool) (cols : Nat) (c : Char) (st0 : EditorState) : EditorState :=
  let st := push_undo_alloc ok st0
  if cols - 1 ≤ st.cur_x then newline st
  else
    let ln := st.lines.getD st.cur_y []
    if MAX_COL ≤ ln.length + 2 then st
    else { st with
           lines := st.lines.set st.cur_y (ln.take st.cur_x ++ c :: ln.drop st.cur_x),
           cur_x := st.cur_x + 1 }

/-- strstr of the C library on the model strings: the offset of the first
occurrence of q as a contiguous sublist of hay, none when there is none.
An empty q matches at offset zero, as strstr returns its argument. -/
def strStr (q : Line) : Line → Option Nat
  | [] => if q.isPrefixOf ([] : Line) then some 0 else none
  | a :: t => if q.isPrefixOf (a :: t) then some 0 else (strStr q t).map (· + 1)

/-- Line y of the document, the empty string off the end (the source
never reads off the end on states satisfying the cursor invariant). -/
def lineAt (ls : List Line) (y : Nat) : Line := ls.getD y []

/-- One scanning loop of search_forward over the row indices ys: on row y
the scan starts at column sx when y is the start row and at column zero
otherwise, and a hit at offset k of the suffix reports absolute column
start plus k, exactly as p - line does in the source. -/
def searchRows (ls : List Line) (q : Line) (sy sx : Nat) : List Nat → Option (Nat × Nat)
  | [] => none
  | y :: ys =>
    match strStr q ((lineAt ls y).drop (if y = sy then sx else 0)) with
    | some k => some (y, (if y = sy then sx else 0) + k)
    | none => searchRows ls q sy sx ys

/-- search_forward from main.c with the global search_query passed as q:
beep (false) on an empty query, otherwise scan rows cur_y .. num_lines - 1
starting at column cur_x + 1 on the start row, then wrap around over rows
0 .. cur_y - 1, and move the cursor to the first hit; beep (false) and
leave the state unchanged when there is none. -/
def search_forward (q : Line) (st : EditorState) : EditorState × Bool :=
  if q.isEmpty then (st, false)
  else
    match searchRows st.lines q st.cur_y (st.cur_x + 1)
        (List.range' st.cur_y (st.lines.length - st.cur_y)) with
    | some yc => ({ st with cur_y := yc.1, cur_x := yc.2 }, true)
    | none =>
      match searchRows st.lines q st.cur_y (st.cur_x + 1) (List.range st.cur_y) with
      | some yc => ({ st with cur_y := yc.1, cur_x := yc.2 }, true)
      | none => (st, false)

/-- Total number of occurrences of the code unit c in the document. -/
def countInDoc (c : Char) : List Line → Nat
  | [] => 0
  | l :: ls => l.count c + countInDoc c ls

/-- The at-least-one-line invariant, over the live document and over every
snapshot held by the two history stacks. -/
def atLeastOneLine (st : EditorState) : Prop :=
  1 ≤ st.lines.length ∧
  (∀ s ∈ st.undo_stack, 1 ≤ s.lines.length) ∧
  (∀ s ∈ st.redo_stack, 1 ≤ s.lines.length)

instance (st : EditorState) : Decidable (atLeastOneLine st) :=
  inferInstanceAs (Decidable (1 ≤ st.lines.length ∧
    (∀ s ∈ st.undo_stack, 1 ≤ s.lines.length) ∧
    (∀ s ∈ st.redo_stack, 1 ≤ s.lines.length)))

/-- out is st after exactly one capture of the live state of st: the redo
stack is empty, the newest undo snapshot is the live state of st, and the
undo stack grew by one up to the UNDO_DEPTH cap. -/
def recordsUndo (st out : EditorState) : Prop :=
  out.redo_stack = [] ∧
  out.undo_stack.head? = some (liveSnapshot st) ∧
  out.undo_stack.length = min (st.undo_stack.length + 1) UNDO_DEPTH

/-- Completeness of the scan region of search_forward: when the search
reports not found, the state is unchanged and the query occurs nowhere in
the scanned region, which is every position except those on the start row
strictly before cur_x + 1. -/
def searchComplete (st : EditorState) (q : Line) : Prop :=
  (search_forward q st).2 = false →
    (search_forward q st).1 = st ∧
    ∀ y k, y ≠ st.cur_y ∨ st.cur_x + 1 ≤ k →
      q.isPrefixOf ((lineAt st.lines y).drop k) = false

/-- Scan order of search_forward, with cy the start row: the forward
block (rows at or after cy) is visited before the wrap block (rows
strictly before cy), rows in increasing order and columns left to right
within a row.  scanOrderLe cy yh ch y c says that position (yh, ch) comes
no later than (y, c): a forward-block hit precedes every wrap-block
position and every forward-block position that is lexicographically
later, and a wrap-block hit requires (y, c) to be a wrap-block position
that is lexicographically no earlier. -/
def scanOrderLe (cy yh ch y c : Nat) : Prop :=
  if cy ≤ yh then cy ≤ y → (yh < y ∨ (yh = y ∧ ch ≤ c))
  else y < cy ∧ (yh < y ∨ (yh = y ∧ ch ≤ c))

/-- Soundness of search_forward: when the search reports a hit it only
moves the cursor, the query occurs at the new cursor position, the hit
never lies in the skipped prefix of the start row (before cur_x + 1), and
the hit is the first occurrence in the scan order: every occurrence of
the query outside the skipped prefix comes no earlier in the scan. -/
def searchSound (st : EditorState) (q : Line) : Prop :=
  (search_forward q st).2 = true →
    (search_forward q st).1.lines = st.lines ∧
    q.isPrefixOf ((lineAt st.lines (search_forward q st).1.cur_y).drop
      (search_forward q st).1.cur_x) = true ∧
    ((search_forward q st).1.cur_y = st.cur_y →
      st.cur_x + 1 ≤ (search_forward q st).1.cur_x) ∧
    ∀ y c, y ≠ st.cur_y ∨ st.cur_x + 1 ≤ c →
      q.isPrefixOf ((lineAt st.lines y).drop c) = true →
      scanOrderLe st.cur_y (search_forward q st).1.cur_y
        (search_forward q st).1.cur_x y c

/-! History lemmas. -/

lemma liveSnapshot_push_undo (st : EditorState) :
    liveSnapshot (push_undo st) = liveSnapshot st := rfl

lemma push_undo_head (st : EditorState) :
    (push_undo st).undo_stack.head? = some (liveSnapshot st) := by
  simp [push_undo]

lemma newline_undo_head (st : EditorState) :
    (newline st).undo_stack.head? = some (liveSnapshot st) := by
  simp only [newline]
  split
  · exact push_undo_head st
  · exact push_undo_head st

lemma insert_char_undo_head (cols : Nat) (c : Char) (st : EditorState) :
    (insert_char cols c st).undo_stack.head? = some (liveSnapshot st) := by
  simp only [insert_char]
  split
  · exact newline_undo_head (push_undo st)
  · split
    · exact push_undo_head st
    · exact push_undo_head st

lemma backspace_undo_head (st : EditorState) :
    (backspace st).undo_stack.head? = some (liveSnapshot st) := by
  simp only [backspace]
  split
  · exact push_undo_head st
  · split
    · split
      · exact push_undo_head st
      · exact push_undo_head st
    · exact push_undo_head st

lemma do_undo_restores (st1 : EditorState) (snap : Snapshot)
    (h : st1.undo_stack.head? = some snap) :
    liveSnapshot (do_undo st1).1 = snap := by
  rcases hu : st1.undo_stack with _ | ⟨s, rest⟩
  · rw [hu] at h
    simp at h
  · rw [hu] at h
    simp only [List.head?_cons, Option.some.injEq] at h
    subst h
    simp only [do_undo, hu, liveSnapshot]

lemma push_undo_length (st : EditorState) (h : st.undo_stack.length ≤ UNDO_DEPTH) :
    (push_undo st).undo_stack.length = min (st.undo_stack.length + 1) UNDO_DEPTH := by
  simp only [push_undo, UNDO_DEPTH] at h ⊢
  split
  · next he => simp [List.length_take, he]
  · next he => simp only [List.length_cons]; omega

lemma insert_char_records (cols : Nat) (c : Char) (st : EditorState)
    (hlen : st.undo_stack.length ≤ UNDO_DEPTH) (hx : st.cur_x + 1 < cols) :
    recordsUndo st (insert_char cols c st) := by
  have hnw : ¬ (cols - 1 ≤ (push_undo st).cur_x) := by
    simp only [push_undo]
    omega
  simp only [insert_char]
  rw [if_neg hnw]
  split
  · exact ⟨rfl, push_undo_head st, push_undo_length st hlen⟩
  · exact ⟨rfl, push_undo_head st, push_undo_length st hlen⟩

lemma backspace_records (st : EditorState)
    (hlen : st.undo_stack.length ≤ UNDO_DEPTH) :
    recordsUndo st (backspace st) := by
  simp only [backspace]
  split
  · exact ⟨rfl, push_undo_head st, push_undo_length st hlen⟩
  · split
    · split
      · exact ⟨rfl, push_undo_head st, push_undo_length st hlen⟩
      · exact ⟨rfl, push_undo_head st, push_undo_length st hlen⟩
    · exact ⟨rfl, push_undo_head st, push_undo_length st hlen⟩

lemma newline_records (st : EditorState)
    (hlen : st.undo_stack.length ≤ UNDO_DEPTH) :
    recordsUndo st (newline st) := by
  simp only [newline]
  split
  · exact ⟨rfl, push_undo_head st, push_undo_length st hlen⟩
  · exact ⟨rfl, push_undo_head st, push_undo_length st hlen⟩

/-! Claim theorems for the history manager. -/

/-- C1: for every editor state and every single mutating edit among
insert_char, backspace and newline, when the undo stack was not at
capacity, do_undo right after the edit restores the document lines byte
for byte together with the cursor column, cursor row and viewport top to
their values just before the edit. -/
theorem undo_reverts_single_edit (st : EditorState) (cols : Nat) (c : Char)
    (hcap : st.undo_stack.length < UNDO_DEPTH) :
    liveSnapshot (do_undo (insert_char cols c st)).1 = liveSnapshot st ∧
    liveSnapshot (do_undo (backspace st)).1 = liveSnapshot st ∧
    liveSnapshot (do_undo (newline st)).1 = liveSnapshot st :=
  ⟨do_undo_restores _ _ (insert_char_undo_head cols c st),
   do_undo_restores _ _ (backspace_undo_head st),
   do_undo_restores _ _ (newline_undo_head st)⟩

/-- Witness for C1 at a concrete state. -/
theorem undo_reverts_single_edit_w :
    ([] : List Snapshot).length < UNDO_DEPTH ∧
    (liveSnapshot (do_undo (insert_char 80 'b' ⟨[['a']], 1, 0, 0, [], []⟩)).1 =
        liveSnapshot ⟨[['a']], 1, 0, 0, [], []⟩ ∧
      liveSnapshot (do_undo (backspace ⟨[['a']], 1, 0, 0, [], []⟩)).1 =
        liveSnapshot ⟨[['a']], 1, 0, 0, [], []⟩ ∧
      liveSnapshot (do_undo (newline ⟨[['a']], 1, 0, 0, [], []⟩)).1 =
        liveSnapshot ⟨[['a']], 1, 0, 0, [], []⟩) :=
  ⟨by decide, undo_reverts_single_edit ⟨[['a']], 1, 0, 0, [], []⟩ 80 'b' (by decide)⟩

/-- C2: with a non-empty undo stack and no capacity eviction on either
stack during the pair, do_undo immediately followed by do_redo restores
the exact state present before the do_undo call; in particular the
document lines, the cursor column and row, and the viewport top. -/
theorem undo_then_redo_roundtrip (st : EditorState)
    (h1 : st.undo_stack ≠ []) (h2 : st.redo_stack.length < UNDO_DEPTH)
    (h3 : st.undo_stack.length ≤ UNDO_DEPTH) :
    (do_redo (do_undo st).1).1 = st := by
  obtain ⟨lines, cx, cy, tl, us, rs⟩ := st
  rcases us with _ | ⟨s, rest⟩
  · exact absurd rfl h1
  · have hr : rest.length < UNDO_DEPTH := by
      simp only [List.length_cons] at h3
      omega
    simp only [List.length_cons] at h2 h3
    simp [do_undo, do_redo, liveSnapshot, h2, hr]

/-- Witness for C2 at a concrete state. -/
theorem undo_then_redo_roundtrip_w :
    (do_redo (do_undo ⟨[['a']], 0, 0, 0, [⟨[['b']], 1, 0, 0⟩], []⟩).1).1 =
      ⟨[['a']], 0, 0, 0, [⟨[['b']], 1, 0, 0⟩], []⟩ :=
  undo_then_redo_roundtrip ⟨[['a']], 0, 0, 0, [⟨[['b']], 1, 0, 0⟩], []⟩
    (by decide) (by decide) (by decide)

/-- C3: push_undo and therefore every mutating edit leaves the redo stack
empty, and do_redo on a state with an empty redo stack signals nothing to
redo and changes nothing; so after mutate A, undo, mutate B, the final
redo is refused rather than restoring the undone A. -/
theorem redo_cleared_on_new_edit (st st2 : EditorState) (cols : Nat) (c : Char)
    (h : st2.redo_stack = []) :
    (push_undo st).redo_stack = [] ∧
    (insert_char cols c st).redo_stack = [] ∧
    (backspace st).redo_stack = [] ∧
    (newline st).redo_stack = [] ∧
    do_redo st2 = (st2, false) := by
  refine ⟨rfl, ?_, ?_, ?_, ?_⟩
  · simp only [insert_char]
    split
    · simp only [newline]
      split
      · rfl
      · rfl
    · split
      · rfl
      · rfl
  · simp only [backspace]
    split
    · rfl
    · split
      · split
        · rfl
        · rfl
      · rfl
  · simp only [newline]
    split
    · rfl
    · rfl
  · simp [do_redo, h]

/-- Witness for C3: the scenario mutate A, undo, mutate B, and then a redo
that finds nothing to redo, on a concrete one-line document. -/
theorem redo_cleared_on_new_edit_w :
    (push_undo ⟨[['x']], 0, 0, 0, [], []⟩).redo_stack = [] ∧
    (insert_char 80 'b' ⟨[['x']], 0, 0, 0, [], []⟩).redo_stack = [] ∧
    (backspace ⟨[['x']], 0, 0, 0, [], []⟩).redo_stack = [] ∧
    (newline ⟨[['x']], 0, 0, 0, [], []⟩).redo_stack = [] ∧
    do_redo (insert_char 80 'b' ((do_undo (insert_char 80 'a' ⟨[['x']], 0, 0, 0, [], []⟩)).1)) =
      (insert_char 80 'b' ((do_undo (insert_char 80 'a' ⟨[['x']], 0, 0, 0, [], []⟩)).1), false) :=
  redo_cleared_on_new_edit ⟨[['x']], 0, 0, 0, [], []⟩
    (insert_char 80 'b' ((do_undo (insert_char 80 'a' ⟨[['x']], 0, 0, 0, [], []⟩)).1))
    80 'b' (by decide)

/-- C9: every call of insert_char (below the wrap column), backspace or
newline records one undo snapshot of the pre-state and empties the redo
stack before checking whether the edit can take effect, so even a refused
or no-op edit spends an undo slot, with the oldest snapshot evicted when
the stack is full. -/
theorem mutators_always_record_undo (st : EditorState) (cols : Nat) (c : Char)
    (hlen : st.undo_stack.length ≤ UNDO_DEPTH) (hx : st.cur_x + 1 < cols) :
    recordsUndo st (insert_char cols c st) ∧
    recordsUndo st (backspace st) ∧
    recordsUndo st (newline st) :=
  ⟨insert_char_records cols c st hlen hx,
   backspace_records st hlen,
   newline_records st hlen⟩

/-- Witness for C9 on a state where all three edits are no-ops on the
document (cursor at the origin of a one-empty-line document) and the undo
stack is full, so the conclusion exercises the eviction cap as well. -/
theorem mutators_always_record_undo_w :
    (List.replicate 32 (⟨[['y']], 0, 0, 0⟩ : Snapshot)).length ≤ UNDO_DEPTH ∧
    (recordsUndo ⟨[[]], 0, 0, 0, List.replicate 32 ⟨[['y']], 0, 0, 0⟩, [⟨[['y']], 0, 0, 0⟩]⟩
        (insert_char 80 'b' ⟨[[]], 0, 0, 0, List.replicate 32 ⟨[['y']], 0, 0, 0⟩, [⟨[['y']], 0, 0, 0⟩]⟩) ∧
      recordsUndo ⟨[[]], 0, 0, 0, List.replicate 32 ⟨[['y']], 0, 0, 0⟩, [⟨[['y']], 0, 0, 0⟩]⟩
        (backspace ⟨[[]], 0, 0, 0, List.replicate 32 ⟨[['y']], 0, 0, 0⟩, [⟨[['y']], 0, 0, 0⟩]⟩) ∧
      recordsUndo ⟨[[]], 0, 0, 0, List.replicate 32 ⟨[['y']], 0, 0, 0⟩, [⟨[['y']], 0, 0, 0⟩]⟩
        (newline ⟨[[]], 0, 0, 0, List.replicate 32 ⟨[['y']], 0, 0, 0⟩, [⟨[['y']], 0, 0, 0⟩]⟩)) :=
  ⟨by decide,
   mutators_always_record_undo
     ⟨[[]], 0, 0, 0, List.replicate 32 ⟨[['y']], 0, 0, 0⟩, [⟨[['y']], 0, 0, 0⟩]⟩
     80 'b' (by decide) (by decide)⟩

/-! Lemmas for the at-least-one-line invariant. -/

lemma push_undo_alol (st : EditorState) (h : atLeastOneLine st) :
    atLeastOneLine (push_undo st) := by
  obtain ⟨h1, h2, h3⟩ := h
  refine ⟨h1, ?_, ?_⟩
  · intro s hs
    simp only [push_undo] at hs
    rcases List.mem_cons.mp hs with h4 | hs2
    · subst h4
      exact h1
    · split at hs2
      · exact h2 s (List.take_subset _ _ hs2)
      · exact h2 s hs2
  · intro s hs
    simp only [push_undo] at hs
    exact absurd hs (List.not_mem_nil s)

lemma newline_alol (st : EditorState) (h : atLeastOneLine st) :
    atLeastOneLine (newline st) := by
  obtain ⟨h1, h2, h3⟩ := push_undo_alol st h
  simp only [newline]
  split
  · exact ⟨h1, h2, h3⟩
  · refine ⟨?_, h2, h3⟩
    simp only [List.length_append, List.length_cons]
    omega

lemma insert_char_alol (cols : Nat) (c : Char) (st : EditorState)
    (h : atLeastOneLine st) : atLeastOneLine (insert_char cols c st) := by
  simp only [insert_char]
  split
  · exact newline_alol (push_undo st) (push_undo_alol st h)
  · obtain ⟨h1, h2, h3⟩ := push_undo_alol st h
    split
    · exact ⟨h1, h2, h3⟩
    · refine ⟨?_, h2, h3⟩
      simpa [List.length_set] using h1

lemma backspace_alol (st : EditorState) (h : atLeastOneLine st) :
    atLeastOneLine (backspace st) := by
  have hp := push_undo_alol st h
  have h0 : 1 ≤ st.lines.length := h.1
  simp only [backspace]
  split
  · refine ⟨?_, hp.2.1, hp.2.2⟩
    simpa [List.length_set] using hp.1
  · split
    · next hy =>
      split
      · exact hp
      · refine ⟨?_, hp.2.1, hp.2.2⟩
        simp only [List.length_append, List.length_take, List.length_drop,
          List.length_set, push_undo]
        simp only [push_undo] at hy
        omega
    · exact hp

lemma do_undo_alol (st : EditorState) (h : atLeastOneLine st) :
    atLeastOneLine (do_undo st).1 := by
  obtain ⟨h1, h2, h3⟩ := h
  rcases hu : st.undo_stack with _ | ⟨s, rest⟩
  · simp only [do_undo, hu]
    exact ⟨h1, h2, h3⟩
  · have hs : 1 ≤ s.lines.length := h2 s (by rw [hu]; exact List.mem_cons_self s rest)
    simp only [do_undo, hu]
    refine ⟨hs, ?_, ?_⟩
    · intro t ht
      exact h2 t (by rw [hu]; exact List.mem_cons_of_mem s ht)
    · intro t ht
      split at ht
      · rcases List.mem_cons.mp ht with h4 | ht2
        · subst h4
          exact h1
        · exact h3 t ht2
      · rcases List.mem_cons.mp ht with h4 | ht2
        · subst h4
          exact h1
        · exact h3 t (List.take_subset _ _ ht2)

lemma do_redo_alol (st : EditorState) (h : atLeastOneLine st) :
    atLeastOneLine (do_redo st).1 := by
  obtain ⟨h1, h2, h3⟩ := h
  rcases hr : st.redo_stack with _ | ⟨r, rest⟩
  · simp only [do_redo, hr]
    exact ⟨h1, h2, h3⟩
  · have hs : 1 ≤ r.lines.length := h3 r (by rw [hr]; exact List.mem_cons_self r rest)
    simp only [do_redo, hr]
    refine ⟨hs, ?_, ?_⟩
    · intro t ht
      split at ht
      · rcases List.mem_cons.mp ht with h4 | ht2
        · subst h4
          exact h1
        · exact h2 t ht2
      · rcases List.mem_cons.mp ht with h4 | ht2
        · subst h4
          exact h1
        · exact h2 t (List.take_subset _ _ ht2)
    · intro t ht
      exact h3 t (by rw [hr]; exact List.mem_cons_of_mem r ht)

lemma load_file_alol (content : Option (List Line)) :
    atLeastOneLine (load_file content) := by
  rcases content with _ | ls
  · exact ⟨by simp [load_file], by simp [load_file], by simp [load_file]⟩
  · simp only [load_file]
    split
    · exact ⟨by simp, by simp, by simp⟩
    · next hne =>
      refine ⟨?_, by simp, by simp⟩
      rcases hl : ls.take MAX_LINES with _ | ⟨a, t⟩
      · rw [hl] at hne
        simp at hne
      · simp [hl]

/-- C6: the document always contains at least one line: every initial
state produced by load_file satisfies the invariant with empty stacks, and
insert_char, backspace (including the line merge), newline, do_undo and
do_redo all preserve it, where the invariant also covers every snapshot
held on the two stacks. -/
theorem document_never_empty (content : Option (List Line)) (st : EditorState)
    (cols : Nat) (c : Char) (h : atLeastOneLine st) :
    atLeastOneLine (load_file content) ∧
    atLeastOneLine (insert_char cols c st) ∧
    atLeastOneLine (backspace st) ∧
    atLeastOneLine (newline st) ∧
    atLeastOneLine (do_undo st).1 ∧
    atLeastOneLine (do_redo st).1 :=
  ⟨load_file_alol content, insert_char_alol cols c st h, backspace_alol st h,
   newline_alol st h, do_undo_alol st h, do_redo_alol st h⟩

/-- Witness for C6 at a concrete state with non-empty stacks. -/
theorem document_never_empty_w :
    atLeastOneLine ⟨[['a']], 0, 0, 0, [⟨[['b']], 0, 0, 0⟩], [⟨[['d']], 0, 0, 0⟩]⟩ ∧
    (atLeastOneLine (load_file (some [['a'], ['b']])) ∧
      atLeastOneLine (insert_char 80 'q'
        ⟨[['a']], 0, 0, 0, [⟨[['b']], 0, 0, 0⟩], [⟨[['d']], 0, 0, 0⟩]⟩) ∧
      atLeastOneLine (backspace
        ⟨[['a']], 0, 0, 0, [⟨[['b']], 0, 0, 0⟩], [⟨[['d']], 0, 0, 0⟩]⟩) ∧
      atLeastOneLine (newline
        ⟨[['a']], 0, 0, 0, [⟨[['b']], 0, 0, 0⟩], [⟨[['d']], 0, 0, 0⟩]⟩) ∧
      atLeastOneLine (do_undo
        ⟨[['a']], 0, 0, 0, [⟨[['b']], 0, 0, 0⟩], [⟨[['d']], 0, 0, 0⟩]⟩).1 ∧
      atLeastOneLine (do_redo
        ⟨[['a']], 0, 0, 0, [⟨[['b']], 0, 0, 0⟩], [⟨[['d']], 0, 0, 0⟩]⟩).1) :=
  ⟨by decide,
   document_never_empty (some [['a'], ['b']])
     ⟨[['a']], 0, 0, 0, [⟨[['b']], 0, 0, 0⟩], [⟨[['d']], 0, 0, 0⟩]⟩ 80 'q' (by decide)⟩

/-! Counting lemmas for the line split. -/

lemma count_splitAt (c : Char) (ls : List Line) (y k : Nat) :
    countInDoc c ((ls.set y ((ls.getD y []).take k)).take (y + 1) ++
      (ls.getD y []).drop k :: (ls.set y ((ls.getD y []).take k)).drop (y + 1)) =
    countInDoc c ls := by
  induction ls generalizing y with
  | nil => cases y <;> simp [countInDoc]
  | cons a t ih =>
    cases y with
    | zero =>
      simp only [List.set_cons_zero, List.getD_cons_zero, List.take_succ_cons,
        List.take_zero, List.drop_succ_cons, List.drop_zero, List.cons_append,
        List.nil_append, countInDoc]
      have hc : (a.take k).count c + (a.drop k).count c = a.count c := by
        rw [← List.count_append, List.take_append_drop]
      omega
    | succ y =>
      simp only [List.set_cons_succ, List.getD_cons_succ, List.take_succ_cons,
        List.drop_succ_cons, List.cons_append, List.append_eq, countInDoc]
      rw [ih y]

lemma countInDoc_newline (c : Char) (st : EditorState) :
    countInDoc c (newline st).lines = countInDoc c st.lines := by
  simp only [newline]
  split
  · rfl
  · exact count_splitAt c (push_undo st).lines (push_undo st).cur_y (push_undo st).cur_x

/-- C10: whenever the cursor column is at or beyond the screen width minus
one, insert_char delegates to newline on the state already captured by its
own push_undo, so the result does not depend on the typed code unit and
the number of occurrences of that code unit in the document is unchanged:
the typed character is discarded. -/
theorem insert_at_screen_width_splits (st : EditorState) (cols : Nat) (c : Char)
    (h : cols - 1 ≤ st.cur_x) :
    insert_char cols c st = newline (push_undo st) ∧
    countInDoc c (insert_char cols c st).lines = countInDoc c st.lines := by
  have he : insert_char cols c st = newline (push_undo st) := by
    simp only [insert_char]
    rw [if_pos (show cols - 1 ≤ (push_undo st).cur_x from h)]
  refine ⟨he, ?_⟩
  rw [he, countInDoc_newline]
  rfl

/-- Witness for C10 at the wrap column of a concrete line. -/
theorem insert_at_screen_width_splits_w :
    3 - 1 ≤ (⟨[['a', 'b', 'c', 'd']], 2, 0, 0, [], []⟩ : EditorState).cur_x ∧
    (insert_char 3 'z' ⟨[['a', 'b', 'c', 'd']], 2, 0, 0, [], []⟩ =
        newline (push_undo ⟨[['a', 'b', 'c', 'd']], 2, 0, 0, [], []⟩) ∧
      countInDoc 'z' (insert_char 3 'z' ⟨[['a', 'b', 'c', 'd']], 2, 0, 0, [], []⟩).lines =
        countInDoc 'z' (⟨[['a', 'b', 'c', 'd']], 2, 0, 0, [], []⟩ : EditorState).lines) :=
  ⟨by decide, insert_at_screen_width_splits ⟨[['a', 'b', 'c', 'd']], 2, 0, 0, [], []⟩ 3 'z' (by decide)⟩

/-- C4 counterexample: insert_char can change the number of lines.  With
the screen 5 columns wide and the cursor at column 4, inserting a
character into the one-line document abcd splits the line and the line
count goes from 1 to 2. -/
theorem insert_char_can_change_line_count :
    (insert_char 5 'z' ⟨[['a', 'b', 'c', 'd']], 4, 0, 0, [], []⟩).lines.length ≠
      (⟨[['a', 'b', 'c', 'd']], 4, 0, 0, [], []⟩ : EditorState).lines.length := by
  decide

/-- C4 amended: insert_char keeps the number of lines whenever the cursor
column is below the screen width minus one (at or beyond it the edit is
delegated to newline); a successful newline increases the line count by
exactly one; a successful backspace line merge, at column zero of a valid
row greater than zero with the combined length within bounds, decreases
the line count by exactly one. -/
theorem line_count_rules (s1 s2 s3 : EditorState) (cols : Nat) (c : Char)
    (h1 : s1.cur_x + 1 < cols)
    (h2 : s2.lines.length + 1 < MAX_LINES)
    (h3a : s3.cur_x = 0) (h3b : 0 < s3.cur_y) (h3c : s3.cur_y < s3.lines.length)
    (h3d : (s3.lines.getD (s3.cur_y - 1) []).length +
      (s3.lines.getD s3.cur_y []).length + 1 < MAX_COL) :
    (insert_char cols c s1).lines.length = s1.lines.length ∧
    (newline s2).lines.length = s2.lines.length + 1 ∧
    (backspace s3).lines.length + 1 = s3.lines.length := by
  refine ⟨?_, ?_, ?_⟩
  · have hnw : ¬ (cols - 1 ≤ (push_undo s1).cur_x) := by
      simp only [push_undo]
      omega
    simp only [insert_char]
    rw [if_neg hnw]
    split
    · rfl
    · simp [List.length_set, push_undo]
  · have hno : ¬ (MAX_LINES ≤ (push_undo s2).lines.length + 1) := by
      simp only [push_undo]
      omega
    simp only [newline]
    rw [if_neg hno]
    simp only [List.length_append, List.length_take, List.length_drop,
      List.length_set, List.length_cons, push_undo]
    omega
  · have hb1 : ¬ (0 < (push_undo s3).cur_x) := by
      simp only [push_undo]
      omega
    have hb2 : 0 < (push_undo s3).cur_y := by
      simp only [push_undo]
      omega
    have hb3 : ¬ (MAX_COL ≤ ((push_undo s3).lines.getD ((push_undo s3).cur_y - 1) []).length +
        ((push_undo s3).lines.getD (push_undo s3).cur_y []).length + 1) := by
      simp only [push_undo]
      omega
    simp only [backspace]
    rw [if_neg hb1, if_pos hb2, if_neg hb3]
    simp only [List.length_append, List.length_take, List.length_drop,
      List.length_set, push_undo]
    omega

/-- Witness for C4 amended on concrete one-line and two-line documents. -/
theorem line_count_rules_w :
    ((⟨[['a']], 0, 0, 0, [], []⟩ : EditorState).cur_x + 1 < 80 ∧
      (⟨[['a']], 0, 0, 0, [], []⟩ : EditorState).lines.length + 1 < MAX_LINES) ∧
    ((insert_char 80 'b' ⟨[['a']], 0, 0, 0, [], []⟩).lines.length =
        (⟨[['a']], 0, 0, 0, [], []⟩ : EditorState).lines.length ∧
      (newline ⟨[['a']], 0, 0, 0, [], []⟩).lines.length =
        (⟨[['a']], 0, 0, 0, [], []⟩ : EditorState).lines.length + 1 ∧
      (backspace ⟨[['a'], ['b']], 0, 1, 0, [], []⟩).lines.length + 1 =
        (⟨[['a'], ['b']], 0, 1, 0, [], []⟩ : EditorState).lines.length) :=
  ⟨⟨by decide, by decide⟩,
   line_count_rules ⟨[['a']], 0, 0, 0, [], []⟩ ⟨[['a']], 0, 0, 0, [], []⟩
     ⟨[['a'], ['b']], 0, 1, 0, [], []⟩ 80 'b'
     (by decide) (by decide) (by decide) (by decide) (by decide) (by decide)⟩

/-- C7 counterexample: insert_char on a line at the maximum length does
not always leave the line and cursor unchanged.  With the cursor at
column 100 of a 4094 character line and an 80 column screen, insert_char
wraps into newline and truncates the line at row 0 to 100 characters. -/
theorem insert_at_max_can_split_line :
    MAX_COL ≤ ((⟨[List.replicate 4094 'a'], 100, 0, 0, [], []⟩ : EditorState).lines.getD 0 []).length + 2 ∧
    ((insert_char 80 'z' ⟨[List.replicate 4094 'a'], 100, 0, 0, [], []⟩).lines.getD 0 []).length ≠
      ((⟨[List.replicate 4094 'a'], 100, 0, 0, [], []⟩ : EditorState).lines.getD 0 []).length := by
  constructor
  · simp only [List.getD_cons_zero, List.length_replicate]
    decide
  · have he : insert_char 80 'z' (⟨[List.replicate 4094 'a'], 100, 0, 0, [], []⟩ : EditorState) =
        newline (push_undo ⟨[List.replicate 4094 'a'], 100, 0, 0, [], []⟩) := by
      simp only [insert_char]
      rw [if_pos (show (80 : Nat) - 1 ≤
        (push_undo ⟨[List.replicate 4094 'a'], 100, 0, 0, [], []⟩).cur_x by decide)]
    rw [he]
    simp only [newline, push_undo, liveSnapshot]
    split
    · next hcontra =>
      simp only [List.length_cons, List.length_nil] at hcontra
      exact absurd hcontra (by decide)
    · simp only [List.set_cons_zero, Nat.zero_add, List.take_succ_cons, List.take_zero,
        List.drop_succ_cons, List.drop_zero, List.getD_cons_zero, List.cons_append,
        List.nil_append]
      rw [List.length_take, List.length_replicate]
      decide

/-- C7 amended: capacity overruns are silently refused with the document
unchanged: insert_char on a line at the maximum length, with the cursor
column below the screen width minus one, leaves the lines and cursor
unchanged (at or beyond that column insert_char instead delegates to
newline, which can split the line); newline at the maximum line count
leaves the lines unchanged; a backspace merge whose combined length would
reach MAX_COL leaves the lines and cursor unchanged. -/
theorem capacity_refusals (s1 s2 s3 : EditorState) (cols : Nat) (c : Char)
    (h1a : s1.cur_x + 1 < cols)
    (h1b : MAX_COL ≤ (s1.lines.getD s1.cur_y []).length + 2)
    (h2 : MAX_LINES ≤ s2.lines.length + 1)
    (h3a : s3.cur_x = 0) (h3b : 0 < s3.cur_y)
    (h3c : MAX_COL ≤ (s3.lines.getD (s3.cur_y - 1) []).length +
      (s3.lines.getD s3.cur_y []).length + 1) :
    ((insert_char cols c s1).lines = s1.lines ∧
      (insert_char cols c s1).cur_x = s1.cur_x ∧
      (insert_char cols c s1).cur_y = s1.cur_y) ∧
    (newline s2).lines = s2.lines ∧
    ((backspace s3).lines = s3.lines ∧
      (backspace s3).cur_x = s3.cur_x ∧
      (backspace s3).cur_y = s3.cur_y) := by
  refine ⟨?_, ?_, ?_⟩
  · have hnw : ¬ (cols - 1 ≤ (push_undo s1).cur_x) := by
      simp only [push_undo]
      omega
    simp only [insert_char]
    rw [if_neg hnw,
      if_pos (show MAX_COL ≤ ((push_undo s1).lines.getD (push_undo s1).cur_y []).length + 2 from h1b)]
    exact ⟨rfl, rfl, rfl⟩
  · simp only [newline]
    rw [if_pos (show MAX_LINES ≤ (push_undo s2).lines.length + 1 from h2)]
    rfl
  · have hb1 : ¬ (0 < (push_undo s3).cur_x) := by
      simp only [push_undo]
      omega
    have hb2 : 0 < (push_undo s3).cur_y := by
      simp only [push_undo]
      omega
    simp only [backspace]
    rw [if_neg hb1, if_pos hb2,
      if_pos (show MAX_COL ≤ ((push_undo s3).lines.getD ((push_undo s3).cur_y - 1) []).length +
        ((push_undo s3).lines.getD (push_undo s3).cur_y []).length + 1 from h3c)]
    exact ⟨rfl, rfl, rfl⟩

/-- Witness for C7 amended: a full-length line, a document at the line
count cap, and a merge that would overflow the maximum line length. -/
theorem capacity_refusals_w :
    ((⟨[List.replicate 4094 'a'], 0, 0, 0, [], []⟩ : EditorState).cur_x + 1 < 80 ∧
      MAX_LINES ≤ (⟨List.replicate 9999 ([] : Line), 0, 0, 0, [], []⟩ : EditorState).lines.length + 1) ∧
    (((insert_char 80 'z' ⟨[List.replicate 4094 'a'], 0, 0, 0, [], []⟩).lines =
          (⟨[List.replicate 4094 'a'], 0, 0, 0, [], []⟩ : EditorState).lines ∧
        (insert_char 80 'z' ⟨[List.replicate 4094 'a'], 0, 0, 0, [], []⟩).cur_x =
          (⟨[List.replicate 4094 'a'], 0, 0, 0, [], []⟩ : EditorState).cur_x ∧
        (insert_char 80 'z' ⟨[List.replicate 4094 'a'], 0, 0, 0, [], []⟩).cur_y =
          (⟨[List.replicate 4094 'a'], 0, 0, 0, [], []⟩ : EditorState).cur_y) ∧
      (newline ⟨List.replicate 9999 ([] : Line), 0, 0, 0, [], []⟩).lines =
        (⟨List.replicate 9999 ([] : Line), 0, 0, 0, [], []⟩ : EditorState).lines ∧
      ((backspace ⟨[List.replicate 4094 'a', ['b']], 0, 1, 0, [], []⟩).lines =
          (⟨[List.replicate 4094 'a', ['b']], 0, 1, 0, [], []⟩ : EditorState).lines ∧
        (backspace ⟨[List.replicate 4094 'a', ['b']], 0, 1, 0, [], []⟩).cur_x =
          (⟨[List.replicate 4094 'a', ['b']], 0, 1, 0, [], []⟩ : EditorState).cur_x ∧
        (backspace ⟨[List.replicate 4094 'a', ['b']], 0, 1, 0, [], []⟩).cur_y =
          (⟨[List.replicate 4094 'a', ['b']], 0, 1, 0, [], []⟩ : EditorState).cur_y)) :=
  ⟨⟨by decide, by simp only [List.length_replicate]; decide⟩,
   capacity_refusals ⟨[List.replicate 4094 'a'], 0, 0, 0, [], []⟩
     ⟨List.replicate 9999 ([] : Line), 0, 0, 0, [], []⟩
     ⟨[List.replicate 4094 'a', ['b']], 0, 1, 0, [], []⟩ 80 'z'
     (by decide)
     (by simp only [List.getD_cons_zero, List.length_replicate]; decide)
     (by simp only [List.length_replicate]; decide)
     (by decide) (by decide)
     (by
       simp only [Nat.sub_self, List.getD_cons_zero, List.getD_cons_succ,
         List.length_replicate, List.length_cons, List.length_nil]
       decide)⟩

/-- C8: the source does not implement the required behaviour.  When the
snapshot allocation inside push_undo fails, insert_char proceeds anyway:
on the one-line document ab with the cursor at column 1 it still inserts
the character, leaving a mutated document with no undo snapshot, so the
pre-image is unrecoverable and the capture-before-mutate invariant is
broken. -/
theorem insert_char_mutates_after_failed_capture :
    (insert_char_alloc false 80 'z' ⟨[['a', 'b']], 1, 0, 0, [], []⟩).lines ≠
      (⟨[['a', 'b']], 1, 0, 0, [], []⟩ : EditorState).lines ∧
    (insert_char_alloc false 80 'z' ⟨[['a', 'b']], 1, 0, 0, [], []⟩).undo_stack = [] ∧
    (insert_char_alloc false 80 'z' ⟨[['a', 'b']], 1, 0, 0, [], []⟩).lines = [['a', 'z', 'b']] := by
  decide

/-! Search lemmas. -/

lemma isPrefixOf_nil (q : Line) (hq : q ≠ []) : q.isPrefixOf ([] : Line) = false := by
  cases q with
  | nil => exact absurd rfl hq
  | cons a t => rfl

lemma strStr_some_pref (q : Line) :
    ∀ hay : Line, ∀ k : Nat, strStr q hay = some k →
      q.isPrefixOf (hay.drop k) = true := by
  intro hay
  induction hay with
  | nil =>
    intro k h
    rw [strStr] at h
    split at h
    · next hp =>
      simp only [Option.some.injEq] at h
      subst h
      simpa using hp
    · exact absurd h (by simp)
  | cons a t ih =>
    intro k h
    rw [strStr] at h
    split at h
    · next hp =>
      simp only [Option.some.injEq] at h
      subst h
      simpa using hp
    · next hp =>
      rcases hs : strStr q t with _ | k0
      · rw [hs] at h
        simp at h
      · rw [hs] at h
        simp only [Option.map_some', Option.some.injEq] at h
        subst h
        rw [List.drop_succ_cons]
        exact ih k0 hs

lemma strStr_none_pref (q : Line) :
    ∀ hay : Line, strStr q hay = none → ∀ k, q.isPrefixOf (hay.drop k) = false := by
  intro hay
  induction hay with
  | nil =>
    intro h k
    rw [strStr] at h
    split at h
    · exact absurd h (by simp)
    · next hp =>
      simp only [Bool.not_eq_true] at hp
      simp only [List.drop_nil]
      exact hp
  | cons a t ih =>
    intro h k
    rw [strStr] at h
    split at h
    · exact absurd h (by simp)
    · next hp =>
      have ht : strStr q t = none := by
        rcases hs : strStr q t with _ | k0
        · rfl
        · rw [hs] at h
          simp at h
      cases k with
      | zero =>
        simp only [Bool.not_eq_true] at hp
        simpa using hp
      | succ k => rw [List.drop_succ_cons]; exact ih ht k

lemma searchRows_none (ls : List Line) (q : Line) (sy sx : Nat) :
    ∀ ys : List Nat, searchRows ls q sy sx ys = none →
      ∀ y ∈ ys, ∀ k, (if y = sy then sx else 0) ≤ k →
        q.isPrefixOf ((lineAt ls y).drop k) = false := by
  intro ys
  induction ys with
  | nil =>
    intro _ y hy
    exact absurd hy (List.not_mem_nil y)
  | cons y0 ys ih =>
    intro h y hy k hk
    rw [searchRows] at h
    rcases hs : strStr q ((lineAt ls y0).drop (if y0 = sy then sx else 0)) with _ | k0
    · rw [hs] at h
      rcases List.mem_cons.mp hy with h4 | hy2
      · subst h4
        have hp := strStr_none_pref q _ hs (k - (if y = sy then sx else 0))
        rw [List.drop_drop, Nat.add_sub_cancel' hk] at hp
        exact hp
      · exact ih h y hy2 k hk
    · rw [hs] at h
      exact absurd h (by simp)

lemma searchRows_some (ls : List Line) (q : Line) (sy sx : Nat) :
    ∀ ys : List Nat, ∀ y c : Nat, searchRows ls q sy sx ys = some (y, c) →
      q.isPrefixOf ((lineAt ls y).drop c) = true := by
  intro ys
  induction ys with
  | nil =>
    intro y c h
    rw [searchRows] at h
    exact absurd h (by simp)
  | cons y0 ys ih =>
    intro y c h
    rw [searchRows] at h
    rcases hs : strStr q ((lineAt ls y0).drop (if y0 = sy then sx else 0)) with _ | k0
    · rw [hs] at h
      exact ih y c h
    · rw [hs] at h
      simp only [Option.some.injEq, Prod.mk.injEq] at h
      obtain ⟨h4, h5⟩ := h
      subst h4
      subst h5
      have hp := strStr_some_pref q _ k0 hs
      rw [List.drop_drop] at hp
      exact hp

lemma strStr_some_first (q : Line) :
    ∀ hay : Line, ∀ k : Nat, strStr q hay = some k →
      ∀ j, j < k → q.isPrefixOf (hay.drop j) = false := by
  intro hay
  induction hay with
  | nil =>
    intro k h j hj
    rw [strStr] at h
    split at h
    · simp only [Option.some.injEq] at h
      exact absurd hj (by omega)
    · exact absurd h (by simp)
  | cons a t ih =>
    intro k h j hj
    rw [strStr] at h
    split at h
    · simp only [Option.some.injEq] at h
      exact absurd hj (by omega)
    · next hp =>
      rcases hs : strStr q t with _ | k0
      · rw [hs] at h
        exact absurd h (by simp)
      · rw [hs] at h
        simp only [Option.map_some', Option.some.injEq] at h
        subst h
        cases j with
        | zero =>
          simp only [Bool.not_eq_true] at hp
          simpa using hp
        | succ j =>
          rw [List.drop_succ_cons]
          exact ih k0 hs j (by omega)

lemma searchRows_some_spec (ls : List Line) (q : Line) (sy sx : Nat) :
    ∀ ys : List Nat, ∀ y c : Nat, searchRows ls q sy sx ys = some (y, c) →
      ∃ ys1 ys2, ys = ys1 ++ y :: ys2 ∧
        (∀ y2 ∈ ys1, ∀ k, (if y2 = sy then sx else 0) ≤ k →
          q.isPrefixOf ((lineAt ls y2).drop k) = false) ∧
        (if y = sy then sx else 0) ≤ c ∧
        q.isPrefixOf ((lineAt ls y).drop c) = true ∧
        ∀ k, (if y = sy then sx else 0) ≤ k → k < c →
          q.isPrefixOf ((lineAt ls y).drop k) = false := by
  intro ys
  induction ys with
  | nil =>
    intro y c h
    rw [searchRows] at h
    exact absurd h (by simp)
  | cons y0 ys ih =>
    intro y c h
    rw [searchRows] at h
    rcases hs : strStr q ((lineAt ls y0).drop (if y0 = sy then sx else 0)) with _ | k0
    · rw [hs] at h
      obtain ⟨ys1, ys2, hdec, hbefore, hsf, hpref, hmin⟩ := ih y c h
      refine ⟨y0 :: ys1, ys2, by rw [hdec, List.cons_append], ?_, hsf, hpref, hmin⟩
      intro y2 hy2 k hk
      rcases List.mem_cons.mp hy2 with h4 | h4
      · subst h4
        have hp := strStr_none_pref q _ hs (k - (if y2 = sy then sx else 0))
        rw [List.drop_drop, Nat.add_sub_cancel' hk] at hp
        exact hp
      · exact hbefore y2 h4 k hk
    · rw [hs] at h
      simp only [Option.some.injEq, Prod.mk.injEq] at h
      obtain ⟨h4, h5⟩ := h
      subst h4
      subst h5
      refine ⟨[], ys, by simp, by simp, Nat.le_add_right _ _, ?_, ?_⟩
      · have hp := strStr_some_pref q _ k0 hs
        rw [List.drop_drop] at hp
        exact hp
      · intro k hk hklt
        have hj := strStr_some_first q _ k0 hs (k - (if y0 = sy then sx else 0)) (by omega)
        rw [List.drop_drop, Nat.add_sub_cancel' hk] at hj
        exact hj

lemma range'_decomp (y : Nat) :
    ∀ (ys1 : List Nat) (s n : Nat) (ys2 : List Nat),
      List.range' s n = ys1 ++ y :: ys2 →
      y = s + ys1.length ∧ ∀ y2, s ≤ y2 → y2 < y → y2 ∈ ys1 := by
  intro ys1
  induction ys1 with
  | nil =>
    intro s n ys2 h
    cases n with
    | zero => exact absurd h (by simp)
    | succ n =>
      rw [List.range'_succ] at h
      simp only [List.nil_append] at h
      injection h with h1 h2
      subst h1
      exact ⟨by simp, by intro y2 h3 h4; omega⟩
  | cons a ys1 ih =>
    intro s n ys2 h
    cases n with
    | zero => exact absurd h (by simp)
    | succ n =>
      rw [List.range'_succ] at h
      simp only [List.cons_append] at h
      injection h with h1 h2
      subst h1
      obtain ⟨hy, hmem⟩ := ih (s + 1) n ys2 h2
      refine ⟨by simp only [List.length_cons]; omega, ?_⟩
      intro y2 h3 h4
      rcases Nat.eq_or_lt_of_le h3 with h5 | h5
      · exact h5 ▸ List.mem_cons_self s ys1
      · exact List.mem_cons_of_mem s (hmem y2 (by omega) h4)

/-- C5 counterexample: the wrap-around of search_forward does not cover
the portion of the start row before the start position.  On the one-line
document ab with the cursor at column 1 and query ab, the only occurrence
is at row 0 column 0, on the start row before the scan start cur_x + 1;
the search reports not found and leaves the state unchanged instead of
moving the cursor to that occurrence. -/
theorem search_misses_match_before_cursor_on_start_row :
    (search_forward ['a', 'b'] ⟨[['a', 'b']], 1, 0, 0, [], []⟩).2 = false ∧
    (search_forward ['a', 'b'] ⟨[['a', 'b']], 1, 0, 0, [], []⟩).1 =
      (⟨[['a', 'b']], 1, 0, 0, [], []⟩ : EditorState) ∧
    ['a', 'b'].isPrefixOf ((lineAt [['a', 'b']] 0).drop 0) = true := by
  decide

/-- C5 amended: search_forward with a non-empty query scans from one past
the cursor column on the start row to the end of that line, then the rows
below in order, and on failure wraps around over the rows strictly before
the start row only, never rescanning the start row itself.  A hit moves
the cursor to the first occurrence of the query in that scan order: the
cursor lands on an occurrence, never inside the skipped prefix of the
start row, and no occurrence outside the skipped prefix precedes it in
the scan order; a miss leaves the state unchanged and means there is no
occurrence anywhere outside the skipped prefix of the start row.  On
document lines abc, xzy, abx with the cursor at row 2 column 3 and query
ab, the search wraps and lands on row 0 column 0. -/
theorem search_forward_scan (st : EditorState) (q : Line) (hq : q ≠ []) :
    searchComplete st q ∧ searchSound st q ∧
    (search_forward ['a', 'b']
      ⟨[['a', 'b', 'c'], ['x', 'z', 'y'], ['a', 'b', 'x']], 3, 2, 0, [], []⟩).1.cur_y = 0 ∧
    (search_forward ['a', 'b']
      ⟨[['a', 'b', 'c'], ['x', 'z', 'y'], ['a', 'b', 'x']], 3, 2, 0, [], []⟩).1.cur_x = 0 ∧
    (search_forward ['a', 'b']
      ⟨[['a', 'b', 'c'], ['x', 'z', 'y'], ['a', 'b', 'x']], 3, 2, 0, [], []⟩).2 = true := by
  have hne : q.isEmpty = false := by
    cases q with
    | nil => exact absurd rfl hq
    | cons a t => rfl
  refine ⟨?_, ?_, by decide, by decide, by decide⟩
  · intro hfalse
    rcases h1 : searchRows st.lines q st.cur_y (st.cur_x + 1)
        (List.range' st.cur_y (st.lines.length - st.cur_y)) with _ | yc
    · rcases h2 : searchRows st.lines q st.cur_y (st.cur_x + 1)
          (List.range st.cur_y) with _ | yc
      · refine ⟨by simp [search_forward, hne, h1, h2], ?_⟩
        intro y k hyk
        by_cases hylt : y < st.cur_y
        · refine searchRows_none st.lines q st.cur_y (st.cur_x + 1) _ h2 y
            (List.mem_range.mpr hylt) k ?_
          have hne2 : ¬ (y = st.cur_y) := by omega
          rw [if_neg hne2]
          exact Nat.zero_le k
        · by_cases hylen : y < st.lines.length
          · have hmem : y ∈ List.range' st.cur_y (st.lines.length - st.cur_y) :=
              List.mem_range'_1.mpr ⟨by omega, by omega⟩
            refine searchRows_none st.lines q st.cur_y (st.cur_x + 1) _ h1 y hmem k ?_
            by_cases hysy : y = st.cur_y
            · rw [if_pos hysy]
              rcases hyk with hcase | hcase
              · exact absurd hysy hcase
              · exact hcase
            · rw [if_neg hysy]
              exact Nat.zero_le k
          · have hnil : lineAt st.lines y = [] :=
              List.getD_eq_default st.lines [] (by omega)
            rw [hnil, List.drop_nil]
            exact isPrefixOf_nil q hq
      · exact absurd hfalse (by simp [search_forward, hne, h1, h2])
    · exact absurd hfalse (by simp [search_forward, hne, h1])
  · intro htrue
    rcases h1 : searchRows st.lines q st.cur_y (st.cur_x + 1)
        (List.range' st.cur_y (st.lines.length - st.cur_y)) with _ | yc
    · rcases h2 : searchRows st.lines q st.cur_y (st.cur_x + 1)
          (List.range st.cur_y) with _ | yc
      · exact absurd htrue (by simp [search_forward, hne, h1, h2])
      · -- hit found by the wrap block
        obtain ⟨ys1, ys2, hdec, hbefore, hsf, hpref, hminrow⟩ :=
          searchRows_some_spec st.lines q st.cur_y (st.cur_x + 1) _ yc.1 yc.2 (by rw [h2])
        have hdec2 : List.range' 0 st.cur_y = ys1 ++ yc.1 :: ys2 := by
          rw [← List.range_eq_range']
          exact hdec
        obtain ⟨hy1, hmem1⟩ := range'_decomp yc.1 ys1 0 st.cur_y ys2 hdec2
        have hylt : yc.1 < st.cur_y := by
          have hm : yc.1 ∈ List.range st.cur_y := by
            rw [hdec]
            exact List.mem_append_right ys1 (List.mem_cons_self yc.1 ys2)
          exact List.mem_range.mp hm
        have hres : (search_forward q st).1.lines = st.lines ∧
            (search_forward q st).1.cur_y = yc.1 ∧
            (search_forward q st).1.cur_x = yc.2 := by
          simp [search_forward, hne, h1, h2]
        refine ⟨hres.1, ?_, ?_, ?_⟩
        · rw [hres.2.1, hres.2.2]
          exact hpref
        · rw [hres.2.1]
          intro hcontra
          exact absurd hcontra (by omega)
        · intro y c hreg hocc
          rw [hres.2.1, hres.2.2]
          simp only [scanOrderLe]
          rw [if_neg (by omega : ¬ st.cur_y ≤ yc.1)]
          have hyn : y < st.cur_y := by
            rcases Nat.lt_or_ge y st.cur_y with hcase | hcase
            · exact hcase
            · exfalso
              by_cases hln : y < st.lines.length
              · have hmem : y ∈ List.range' st.cur_y (st.lines.length - st.cur_y) :=
                  List.mem_range'_1.mpr ⟨hcase, by omega⟩
                have hnom := searchRows_none st.lines q st.cur_y (st.cur_x + 1) _ h1 y hmem c (by
                  by_cases hysy : y = st.cur_y
                  · rw [if_pos hysy]
                    rcases hreg with hr | hr
                    · exact absurd hysy hr
                    · exact hr
                  · rw [if_neg hysy]
                    exact Nat.zero_le c)
                simp [hocc] at hnom
              · have hnil : lineAt st.lines y = [] :=
                  List.getD_eq_default st.lines [] (by omega)
                rw [hnil, List.drop_nil, isPrefixOf_nil q hq] at hocc
                exact absurd hocc (by simp)
          refine ⟨hyn, ?_⟩
          rcases Nat.lt_trichotomy y yc.1 with hlt | heq | hgt
          · have hymem : y ∈ ys1 := hmem1 y (Nat.zero_le y) hlt
            have hnom := hbefore y hymem c (by
              rw [if_neg (by omega : ¬ y = st.cur_y)]
              exact Nat.zero_le c)
            simp [hocc] at hnom
          · refine Or.inr ⟨heq.symm, ?_⟩
            by_contra hlt2
            rw [heq] at hocc
            have hnom := hminrow c (by
              rw [if_neg (by omega : ¬ yc.1 = st.cur_y)]
              exact Nat.zero_le c) (by omega)
            simp [hocc] at hnom
          · exact Or.inl hgt
    · -- hit found by the forward block
      obtain ⟨ys1, ys2, hdec, hbefore, hsf, hpref, hminrow⟩ :=
        searchRows_some_spec st.lines q st.cur_y (st.cur_x + 1) _ yc.1 yc.2 (by rw [h1])
      obtain ⟨hy1, hmem1⟩ :=
        range'_decomp yc.1 ys1 st.cur_y (st.lines.length - st.cur_y) ys2 hdec
      have hcyle : st.cur_y ≤ yc.1 := by omega
      have hres : (search_forward q st).1.lines = st.lines ∧
          (search_forward q st).1.cur_y = yc.1 ∧
          (search_forward q st).1.cur_x = yc.2 := by
        simp [search_forward, hne, h1]
      refine ⟨hres.1, ?_, ?_, ?_⟩
      · rw [hres.2.1, hres.2.2]
        exact hpref
      · rw [hres.2.1, hres.2.2]
        intro hey
        rw [if_pos hey] at hsf
        exact hsf
      · intro y c hreg hocc
        rw [hres.2.1, hres.2.2]
        simp only [scanOrderLe]
        rw [if_pos hcyle]
        intro hcyy
        rcases Nat.lt_trichotomy y yc.1 with hlt | heq | hgt
        · have hymem : y ∈ ys1 := hmem1 y hcyy hlt
          have hnom := hbefore y hymem c (by
            by_cases hysy : y = st.cur_y
            · rw [if_pos hysy]
              rcases hreg with hr | hr
              · exact absurd hysy hr
              · exact hr
            · rw [if_neg hysy]
              exact Nat.zero_le c)
          simp [hocc] at hnom
        · refine Or.inr ⟨heq.symm, ?_⟩
          by_contra hlt2
          rw [heq] at hocc
          have hnom := hminrow c (by
            by_cases hysy : yc.1 = st.cur_y
            · rw [if_pos hysy]
              rcases hreg with hr | hr
              · exact absurd (heq.trans hysy) hr
              · exact hr
            · rw [if_neg hysy]
              exact Nat.zero_le c) (by omega)
          simp [hocc] at hnom
        · exact Or.inl hgt

/-- Witness for C5 amended on a concrete one-line document and query. -/
theorem search_forward_scan_w :
    searchComplete ⟨[['a']], 0, 0, 0, [], []⟩ ['a'] ∧
    searchSound ⟨[['a']], 0, 0, 0, [], []⟩ ['a'] ∧
    (search_forward ['a', 'b']
      ⟨[['a', 'b', 'c'], ['x', 'z', 'y'], ['a', 'b', 'x']], 3, 2, 0, [], []⟩).1.cur_y = 0 ∧
    (search_forward ['a', 'b']
      ⟨[['a', 'b', 'c'], ['x', 'z', 'y'], ['a', 'b', 'x']], 3, 2, 0, [], []⟩).1.cur_x = 0 ∧
    (search_forward ['a', 'b']
      ⟨[['a', 'b', 'c'], ['x', 'z', 'y'], ['a', 'b', 'x']], 3, 2, 0, [], []⟩).2 = true :=
  search_forward_scan ⟨[['a']], 0, 0, 0, [], []⟩ ['a'] (by decide)

end Codein
